import Mathlib

/-!
Verification development for the lite-client verifier of this repository
(`lite/client.go`, the db provider, the lite errors package and the provider
interfaces). The Go code is shallowly embedded: Go `int64` values become
`Int`, byte strings become `List Nat`, durations and times become `Int`
(nanoseconds), stateful provider code becomes explicit state passing over a
pure store, and the two unbounded loops of the source (`fillValsetAndSaveFC`
retry loop and the bisecting loop) are embedded with an explicit fuel
parameter: a result of `none` means the loop has not returned within the
given fuel bound, for any bound.

The cryptographic facade (commit verification, full validation, hashing)
lives in the `types` package of this repository, outside the files given
here; those operations are modelled from the spec (each such definition says
so in its doc comment). Everything else is translated from the source files.
-/

/-- A validator: stable address and positive voting power
(`types.Validator`, facade). Addresses are opaque bytes; we model them as a
single `Nat`. -/
structure Validator where
  address : Nat
  votingPower : Int
  deriving Repr, DecidableEq

/-- An ordered list of validators (`types.ValidatorSet`, facade). -/
structure ValidatorSet where
  validators : List Validator
  deriving Repr, DecidableEq

/-- Total voting power: sum of the members' powers. -/
def ValidatorSet.totalVotingPower (vs : ValidatorSet) : Int :=
  (vs.validators.map (·.votingPower)).sum

/-- Lookup by address (`ValidatorSet.GetByAddress`); `none` models the nil
pointer the Go version returns when the address is absent. -/
def ValidatorSet.getByAddress (vs : ValidatorSet) (addr : Nat) : Option Validator :=
  vs.validators.find? (fun v => v.address = addr)

/-- Modelled from the spec: a commit is a set of pre-commit votes with
signatures over `(chain_id, block_id, height)`.  We record the data the
votes validly sign and the addresses of the validators whose signatures
check out; signature verification itself is the opaque facade. -/
structure Commit where
  blockID : List Nat
  height : Int
  signedChainID : List Nat
  signers : List Nat
  deriving Repr, DecidableEq

/-- The consensus output for one block (`types.SignedHeader`, facade).
The two validator hashes are modelled by the sets they commit to (the hash
facade is injective and deterministic per the spec), and `hdrHash` is the
opaque header hash used by bootstrap. -/
structure SignedHeader where
  chainID : List Nat
  height : Int
  time : Int
  validatorsHash : ValidatorSet
  nextValidatorsHash : ValidatorSet
  commit : Commit
  hdrHash : List Nat
  deriving Repr, DecidableEq

/-- The atomic unit of trust (`lite.FullCommit`). -/
structure FullCommit where
  signedHeader : SignedHeader
  validators : ValidatorSet
  nextValidators : ValidatorSet
  deriving Repr, DecidableEq

/-- Height of a FullCommit is its header height (`FullCommit.Height`). -/
def FullCommit.height (fc : FullCommit) : Int :=
  fc.signedHeader.height

/-- Error kinds of the lite errors package plus the generic errors produced
by `client.go` and the facade.  Go panics on programmer invariants are
modelled by the distinguished `panicked` kind (the spec calls them fatal
process errors). -/
inductive VErr where
  | commitNotFound
  | valsetNotFound
  | commitExpired
  | validatorChange (change : ℚ)
  | tooMuchChange
  | invalidCommit
  | validateFullFailed
  | staleTrust
  | trustHashMismatch
  | panicked
  deriving Repr, DecidableEq

/-- Combined voting power of the given addresses inside a validator set. -/
def signedPower (vs : ValidatorSet) (signers : List Nat) : Int :=
  ((vs.validators.filter (fun v => signers.contains v.address)).map (·.votingPower)).sum

/-- Modelled from the spec: `validator_set.verify_commit` succeeds iff the
commit is for the requested `(chain_id, block_id, height)` and signers whose
combined power exceeds 2/3 of the set's total produced valid signatures.
Insufficient signing power is the error kind the bisecting loop recovers
from (`types.IsErrTooMuchChange` in the source, outside the given files);
other mismatches are plain invalid-commit errors. -/
def ValidatorSet.verifyCommitE (vs : ValidatorSet) (chainID blockID : List Nat)
    (height : Int) (c : Commit) : Except VErr Unit :=
  if c.signedChainID = chainID ∧ c.blockID = blockID ∧ c.height = height then
    if 3 * signedPower vs c.signers > 2 * vs.totalVotingPower then
      Except.ok ()
    else
      Except.error VErr.tooMuchChange
  else
    Except.error VErr.invalidCommit

/-- Modelled from the spec: `verify_commit_trusting` succeeds iff signers
whose combined power ratio in this set is at least `trustLevel` produced
valid signatures over `(chain_id, block_id, height)`.  This operation is
never called by the source file under verification; it is stated here only
to compare the code against the spec's canonical acceptance gate. -/
def ValidatorSet.verifyCommitTrusting (vs : ValidatorSet) (chainID blockID : List Nat)
    (height : Int) (c : Commit) (trustLevel : ℚ) : Bool :=
  decide (c.signedChainID = chainID ∧ c.blockID = blockID ∧ c.height = height) &&
  decide ((signedPower vs c.signers : ℚ) ≥ trustLevel * (vs.totalVotingPower : ℚ))

/-- Whether a fallible facade operation succeeded. -/
def exceptOk {α : Type} : Except VErr α → Bool
  | Except.ok _ => true
  | Except.error _ => false

/-- Modelled from the spec: `full_commit.validate_full` checks internal
self-consistency: the header carries the requested chain id, the bound
validator sets match the hashes the header commits to, and the commit is
fully signed by `validators` above 2/3. -/
def FullCommit.validateFull (chainID : List Nat) (fc : FullCommit) : Bool :=
  decide (fc.signedHeader.chainID = chainID) &&
  decide (fc.validators = fc.signedHeader.validatorsHash) &&
  decide (fc.nextValidators = fc.signedHeader.nextValidatorsHash) &&
  decide (fc.signedHeader.commit.height = fc.signedHeader.height) &&
  exceptOk (fc.validators.verifyCommitE chainID fc.signedHeader.commit.blockID
    fc.signedHeader.height fc.signedHeader.commit)

/-- The Go expression `float64(1/3)` from `verifyAndSave`: `1/3` is integer
constant division, so the converted value is exactly zero. -/
def goOneThird : ℚ :=
  ((Int.tdiv 1 3 : Int) : ℚ)

/-- One summand of the drift accumulator: the voting-power share of `v`
inside the new validator set. -/
def newShare (newVals : ValidatorSet) (v : Validator) : ℚ :=
  (v.votingPower : ℚ) / (newVals.totalVotingPower : ℚ)

/-- One summand of the drift accumulator: the voting-power share, inside the
trusted next-validators, of the trusted validator with `v`'s address
(`0` is never reached in runs where the address is present). -/
def trustedShare (tnext : ValidatorSet) (v : Validator) : ℚ :=
  match tnext.getByAddress v.address with
  | some tv => (tv.votingPower : ℚ) / (tnext.totalVotingPower : ℚ)
  | none => 0

/-- Accumulation loop of `compareVotingPowers`.  `none` models the nil
dereference panic the Go code hits when a new validator's address is absent
from the trusted next-validators. -/
def compareVotingPowersAux (tnext newVals : ValidatorSet) : List Validator → Option ℚ
  | [] => some 0
  | v :: rest =>
    match tnext.getByAddress v.address, compareVotingPowersAux tnext newVals rest with
    | some _, some acc => some (|newShare newVals v - trustedShare tnext v| + acc)
    | _, _ => none

/-- `compareVotingPowers` from `client.go`: sum over the new commit's
validators of the absolute difference between the validator's power share in
the new validator set and its power share in the trusted commit's
next-validators. -/
def compareVotingPowers (trustedFC newFC : FullCommit) : Option ℚ :=
  compareVotingPowersAux trustedFC.nextValidators newFC.validators newFC.validators.validators

/-- The trusted store contents: the list of saved FullCommits,
most recent save first. -/
abbrev Store := List FullCommit

/-- `SaveFullCommit` on the trusted store, as seen by the verifier: the
commit is added to the stored set. -/
def saveFullCommit (store : Store) (fc : FullCommit) : Store :=
  fc :: store

/-- Pick the greatest-height commit of a list, if any. -/
def pickLatest : List FullCommit → Option FullCommit
  | [] => none
  | fc :: rest =>
    match pickLatest rest with
    | none => some fc
    | some b => if b.height < fc.height then some fc else some b

/-- `LatestFullCommit(chainID, minHeight, maxHeight)` on the trusted store:
the greatest-height stored commit within the inclusive height range, or
`ErrCommitNotFound`. -/
def latestFullCommit (store : Store) (minH maxH : Int) : Except VErr FullCommit :=
  match pickLatest (store.filter (fun fc => decide (minH ≤ fc.height) && decide (fc.height ≤ maxH))) with
  | none => Except.error VErr.commitNotFound
  | some fc => Except.ok fc

/-- Parameters and external collaborators of the `Provider` in `client.go`:
chain id, current time, trust period, the source provider (`LatestFullCommit`
at an exact height) and the source's `ValidatorSet` by height. -/
structure VPEnv where
  chainID : List Nat
  now : Int
  trustPeriod : Int
  source : Int → Except VErr FullCommit
  sourceValset : Int → Except VErr ValidatorSet

/-- `verifyAndSave` from `client.go`: panic guard on heights, trust-period
expiry gate, full 2/3 `VerifyCommit` of the new commit against the trusted
commit's next-validators, `ValidateFull`, the voting-power drift gate
against `float64(1/3)`, and finally the save. -/
def verifyAndSave (env : VPEnv) (store : Store) (trustedFC newFC : FullCommit) :
    Except VErr Store :=
  if newFC.height ≤ trustedFC.height then
    Except.error VErr.panicked
  else if env.now - trustedFC.signedHeader.time > env.trustPeriod then
    Except.error VErr.commitExpired
  else
    match trustedFC.nextValidators.verifyCommitE env.chainID
        newFC.signedHeader.commit.blockID newFC.signedHeader.height
        newFC.signedHeader.commit with
    | Except.error e => Except.error e
    | Except.ok _ =>
      if newFC.height ≥ trustedFC.height + 1 ∧ ¬ newFC.validateFull env.chainID then
        Except.error VErr.validateFullFailed
      else
        match compareVotingPowers trustedFC newFC with
        | none => Except.error VErr.panicked
        | some change =>
          if change > goOneThird then
            Except.error (VErr.validatorChange change)
          else
            Except.ok (saveFullCommit store newFC)

/-- The two call shapes of the mutually recursive bisecting verification in
`client.go`: `fetch` is an entry into `fetchAndVerifyToHeightBisecting`
(source fetch and self-validation of the target commit), `loop` is one pass
of its retry loop with a source commit in hand. -/
inductive BisectCall where
  | fetch (store : Store) (h : Int)
  | loop (store : Store) (h : Int) (sourceFC : FullCommit)

/-- `fetchAndVerifyToHeightBisecting` from `client.go`, fuel-indexed.  Each
loop pass and each recursive bisection call consumes one unit of fuel;
`none` means the computation did not return within the fuel bound.  The
divide-and-conquer branch fires exactly on the error kind
`types.IsErrTooMuchChange` recognizes (the insufficient-trusting-power kind,
see `ValidatorSet.verifyCommitE`), computes `mid = (start+end)/2` with Go's
truncated division and recurses without any bound check on `mid`. -/
def bisectStep (env : VPEnv) : Nat → BisectCall → Option (Except VErr (FullCommit × Store))
  | 0, _ => none
  | Nat.succ fuel, BisectCall.fetch store h =>
    match env.source h with
    | Except.error e => some (Except.error e)
    | Except.ok sourceFC =>
      if sourceFC.height ≠ h then
        some (Except.error VErr.commitNotFound)
      else if ¬ sourceFC.validateFull env.chainID then
        some (Except.error VErr.validateFullFailed)
      else
        bisectStep env fuel (BisectCall.loop store h sourceFC)
  | Nat.succ fuel, BisectCall.loop store h sourceFC =>
    match latestFullCommit store 1 h with
    | Except.error e => some (Except.error e)
    | Except.ok trustedFC =>
      if trustedFC.height = h then
        some (Except.ok (trustedFC, store))
      else
        match verifyAndSave env store trustedFC sourceFC with
        | Except.ok store1 => some (Except.ok (sourceFC, store1))
        | Except.error e =>
          if e = VErr.tooMuchChange then
            if ¬ (trustedFC.height < sourceFC.height) then
              some (Except.error VErr.panicked)
            else
              match bisectStep env fuel
                  (BisectCall.fetch store (Int.tdiv (trustedFC.height + sourceFC.height) 2)) with
              | none => none
              | some (Except.error e1) => some (Except.error e1)
              | some (Except.ok (_, store1)) =>
                bisectStep env fuel (BisectCall.loop store1 h sourceFC)
          else
            some (Except.error e)

/-- Entry point of the bisecting verification for one target height. -/
def bisect (env : VPEnv) (fuel : Nat) (store : Store) (h : Int) :
    Option (Except VErr (FullCommit × Store)) :=
  bisectStep env fuel (BisectCall.fetch store h)

/-- The `Provider` state `UpdateToHeight` manipulates: the trusted store and
the `vp.height` field (the last verified height). -/
structure PState where
  store : Store
  height : Int
  deriving Repr, DecidableEq

/-- `UpdateToHeight` from `client.go`: return success immediately when the
trusted store has a commit at exactly the target height, propagate
non-not-found read errors, otherwise run the bisecting verification and on
success assign `vp.height = height`. -/
def updateToHeight (env : VPEnv) (fuel : Nat) (st : PState) (h : Int) :
    Option (Except VErr PState) :=
  match latestFullCommit st.store h h with
  | Except.ok _ => some (Except.ok st)
  | Except.error e =>
    if e = VErr.commitNotFound then
      match bisect env fuel st.store h with
      | none => none
      | some (Except.error e1) => some (Except.error e1)
      | some (Except.ok (_, store1)) => some (Except.ok { store := store1, height := h })
    else
      some (Except.error e)

/-- The next-validator-set fetch loop of `fillValsetAndSaveFC`, fuel-indexed:
on `ErrValidatorSetNotFound` the source is asked again (`continue`), any
other error is surfaced, a fetched set breaks the loop.  `none` means the
loop did not return within the fuel bound. -/
def fetchNextValset (src : Int → Except VErr ValidatorSet) : Nat → Int → Option (Except VErr ValidatorSet)
  | 0, _ => none
  | Nat.succ fuel, h =>
    match src h with
    | Except.error VErr.valsetNotFound => fetchNextValset src fuel h
    | Except.error e => some (Except.error e)
    | Except.ok vs => some (Except.ok vs)

/-- `fillValsetAndSaveFC` from `client.go`: fetch the missing validator
sets (the next set through the retry loop above), assemble a FullCommit,
`ValidateFull` it and save it to the trusted store. -/
def fillValsetAndSaveFC (env : VPEnv) (store : Store) (fuel : Nat) (sh : SignedHeader)
    (valset nextValset : Option ValidatorSet) : Option (Except VErr Store) :=
  match (match valset with
         | some vs => Except.ok vs
         | none => env.sourceValset sh.height) with
  | Except.error e => some (Except.error e)
  | Except.ok vs =>
    match (match nextValset with
           | some nvs => some (Except.ok nvs)
           | none => fetchNextValset env.sourceValset fuel (sh.height + 1)) with
    | none => none
    | some (Except.error e) => some (Except.error e)
    | some (Except.ok nvs) =>
      let fc : FullCommit := { signedHeader := sh, validators := vs, nextValidators := nvs }
      if ¬ fc.validateFull env.chainID then
        some (Except.error VErr.validateFullFailed)
      else
        some (Except.ok (saveFullCommit store fc))

/-- `TrustOptions` from `client.go`; the callback result is carried
separately where needed. -/
structure TrustOptions where
  trustPeriod : Int
  trustHeight : Int
  trustHash : List Nat
  deriving Repr, DecidableEq

/-- `TrustOptions.Option1`: true iff both a trust height and a trust hash
were provided. -/
def TrustOptions.option1 (opts : TrustOptions) : Bool :=
  decide (opts.trustHeight > 0) && decide (opts.trustHash ≠ [])

/-- `getTrustedCommit` from `client.go`.  `latestRes` is the result of
`client.Commit(nil)` (always fetched first), `trustRes` the result of
`client.Commit(&options.TrustHeight)` (consulted only under Option 1), and
`cb` the result of invoking the Option-2 confirmation callback when one is
set.  Under Option 1 the staleness gate is checked before the hash gate. -/
def getTrustedCommit (latestRes trustRes : Except VErr SignedHeader)
    (opts : TrustOptions) (cb : Option (Except VErr Unit)) : Except VErr SignedHeader :=
  match latestRes with
  | Except.error e => Except.error e
  | Except.ok latest =>
    if opts.option1 then
      match trustRes with
      | Except.error e => Except.error e
      | Except.ok trustC =>
        if latest.time - trustC.time > opts.trustPeriod then
          Except.error VErr.staleTrust
        else if trustC.hdrHash ≠ opts.trustHash then
          Except.error VErr.trustHashMismatch
        else
          Except.ok trustC
    else
      match cb with
      | some (Except.error e) => Except.error e
      | _ => Except.ok latest

/-- The two key families of the db provider: `.../sh` and `.../vs`. -/
inductive KPart where
  | sh
  | vs
  deriving Repr, DecidableEq

/-- A stored key of the db provider for one fixed chain id:
height and key family.  For ten-digit-padded heights the lexicographic byte
order of the concrete keys `{chain_id}/{height:010d}/{sh|vs}` is exactly:
height first, and `sh` before `vs` at equal height (`'s' < 'v'`); the
byte-level key model below proves samples of this. -/
abbrev DbKey := Nat × KPart

/-- Strict key order of the db provider's keyspace for one chain. -/
def dbKeyLt (a b : DbKey) : Bool :=
  decide (a.1 < b.1) || (decide (a.1 = b.1) && decide (a.2 = KPart.sh ∧ b.2 = KPart.vs))

/-- Insert a key into the descending-ordered scan list. -/
def insertDescKey (k : DbKey) : List DbKey → List DbKey
  | [] => [k]
  | x :: xs => if dbKeyLt x k then k :: x :: xs else x :: insertDescKey k xs

/-- The db's keys in descending lexicographic order, as produced by
`db.ReverseIterator`. -/
def sortDescKeys (l : List DbKey) : List DbKey :=
  l.foldr insertDescKey []

/-- The scan loop of `deleteAfterN`: walk the descending key list keeping
`(minHeight, numSeen)`; `numSeen` increments when a strictly lower height
appears, and every key seen while `numSeen > after` is deleted.  Returns the
list of deleted keys. -/
def deleteScan (after : Nat) : List DbKey → Nat → Nat → List DbKey
  | [], _, _ => []
  | k :: rest, minH, numSeen =>
    let minH1 := if k.1 < minH then k.1 else minH
    let numSeen1 := if k.1 < minH then numSeen + 1 else numSeen
    if numSeen1 > after then
      k :: deleteScan after rest minH1 numSeen1
    else
      deleteScan after rest minH1 numSeen1

/-- `deleteAfterN` from the db provider: reverse-scan the chain's keyspace
(the scan range `[sh@1, sh@(2^63-1)+0x00)` covers both the `sh` and the `vs`
keys of every height ≥ 1) and delete every key past the first `after`
distinct heights.  `minHeight` starts at `1<<63 - 1`. -/
def deleteAfterN (db : List DbKey) (after : Nat) : List DbKey :=
  let deleted := deleteScan after (sortDescKeys (db.filter (fun k => decide (1 ≤ k.1)))) (2 ^ 63 - 1) 0
  db.filter (fun k => ¬ deleted.contains k)

/-- Add a key if absent (`batch.Set` overwrites; presence is what matters). -/
def insertKey (k : DbKey) (db : List DbKey) : List DbKey :=
  if db.contains k then db else k :: db

/-- `DBProvider.SaveFullCommit` at height `h`: write `vs@h`, `vs@(h+1)` and
`sh@h` in one batch, then garbage-collect with `deleteAfterN` when a
retention limit is set. -/
def dbSaveFullCommit (db : List DbKey) (limit : Nat) (h : Nat) : List DbKey :=
  let db1 := insertKey (h, KPart.sh) (insertKey (h + 1, KPart.vs) (insertKey (h, KPart.vs) db))
  if limit > 0 then deleteAfterN db1 limit else db1

/-- Zero-padded fixed-width decimal digits (most significant first):
`padDec k n` is the `k`-digit base-10 expansion of `n`, the digit string
`%0kd` prints for `n < 10^k`. -/
def padDec : Nat → Nat → List Nat
  | 0, _ => []
  | Nat.succ k, n => (n / 10 ^ k) :: padDec k (n % 10 ^ k)

/-- Strict lexicographic order on byte strings (the key order of the
underlying key-value store). -/
def bytesLt : List Nat → List Nat → Bool
  | [], [] => false
  | [], _ :: _ => true
  | _ :: _, [] => false
  | x :: xs, y :: ys => if x < y then true else if y < x then false else bytesLt xs ys

/-- `signedHeaderKey` from the db provider: the bytes of
`{chain_id}/{height:010d}/sh` (47 is `/`, 115 `s`, 104 `h`; digits are ASCII
`48 + d`). -/
def signedHeaderKey (chainID : List Nat) (h : Nat) : List Nat :=
  chainID ++ [47] ++ (padDec 10 h).map (fun d => 48 + d) ++ [47, 115, 104]

/-- `validatorSetKey` from the db provider: the bytes of
`{chain_id}/{height:010d}/vs` (118 is `v`). -/
def validatorSetKey (chainID : List Nat) (h : Nat) : List Nat :=
  chainID ++ [47] ++ (padDec 10 h).map (fun d => 48 + d) ++ [47, 118, 115]

instance {ε α : Type} [DecidableEq ε] [DecidableEq α] : DecidableEq (Except ε α) := fun a b =>
  match a, b with
  | Except.ok x, Except.ok y =>
    if h : x = y then isTrue (h ▸ rfl) else isFalse (fun hc => h (Except.ok.inj hc))
  | Except.error x, Except.error y =>
    if h : x = y then isTrue (h ▸ rfl) else isFalse (fun hc => h (Except.error.inj hc))
  | Except.ok _, Except.error _ => isFalse (fun hc => Except.noConfusion hc)
  | Except.error _, Except.ok _ => isFalse (fun hc => Except.noConfusion hc)

/-- Fixture chain id (one byte). -/
def cxChain : List Nat := [99]

/-- Fixture validators, all of power 1 except where stated. -/
def valA : Validator := { address := 1, votingPower := 1 }

def valB : Validator := { address := 2, votingPower := 1 }

def valC : Validator := { address := 3, votingPower := 1 }

def valD : Validator := { address := 4, votingPower := 1 }

def valE : Validator := { address := 5, votingPower := 1 }

def valF : Validator := { address := 6, votingPower := 1 }

def setAB : ValidatorSet := { validators := [valA, valB] }

def setCD : ValidatorSet := { validators := [valC, valD] }

def setEF : ValidatorSet := { validators := [valE, valF] }

/-- Same addresses as `setAB` but validator 2 grew to power 3: every power
share drifted while the membership is unchanged. -/
def setABdrift : ValidatorSet := { validators := [valA, { address := 2, votingPower := 3 }] }

/-- Build a fixture signed header at height `h` whose commit is validly
signed by `signers` over this header's block id. -/
def mkHeader (h : Int) (vals next : ValidatorSet) (signers : List Nat) : SignedHeader :=
  { chainID := cxChain, height := h, time := 0,
    validatorsHash := vals, nextValidatorsHash := next,
    commit := { blockID := [h.toNat], height := h, signedChainID := cxChain, signers := signers },
    hdrHash := [h.toNat] }

/-- Build a fixture FullCommit consistent with its header. -/
def mkFC (h : Int) (vals next : ValidatorSet) (signers : List Nat) : FullCommit :=
  { signedHeader := mkHeader h vals next signers, validators := vals, nextValidators := next }

/-- Fixture environment whose source has nothing. -/
def env1 : VPEnv :=
  { chainID := cxChain, now := 0, trustPeriod := 100,
    source := fun _ => Except.error VErr.commitNotFound,
    sourceValset := fun _ => Except.error VErr.valsetNotFound }

/-- Fixture environment observed after the trust period elapsed. -/
def envExp : VPEnv :=
  { chainID := cxChain, now := 200, trustPeriod := 100,
    source := fun _ => Except.error VErr.commitNotFound,
    sourceValset := fun _ => Except.error VErr.valsetNotFound }

/-- Trusted commit at height 1, validators and next-validators `{A,B}`. -/
def tfc1 : FullCommit := mkFC 1 setAB setAB [1, 2]

/-- New commit at height 2 over the drifted set: same two signers, so the
trusting overlap with `setAB` is total, but every power share changed. -/
def nfc1 : FullCommit := mkFC 2 setABdrift setABdrift [1, 2]

/-- Bisection fixture: trusted commit at height 1 whose next validators are
`{C,D}`. -/
def fcB1 : FullCommit := mkFC 1 setAB setCD [1, 2]

/-- Bisection fixture: source commit at height 2 self-signed by `{E,F}`,
entirely disjoint from the trusted next validators. -/
def fcB2 : FullCommit := mkFC 2 setEF setEF [5, 6]

/-- Bisection fixture source: heights 1 and 2 only. -/
def env3 : VPEnv :=
  { chainID := cxChain, now := 0, trustPeriod := 100,
    source := fun h => if h = 1 then Except.ok fcB1 else
      if h = 2 then Except.ok fcB2 else Except.error VErr.commitNotFound,
    sourceValset := fun _ => Except.error VErr.valsetNotFound }

/-- Bisection fixture trusted store. -/
def store3 : Store := [fcB1]

/-- Monotonicity fixture: stable validator set at heights 10, 50, 100. -/
def fcG10 : FullCommit := mkFC 10 setAB setAB [1, 2]

def fcG50 : FullCommit := mkFC 50 setAB setAB [1, 2]

def fcG100 : FullCommit := mkFC 100 setAB setAB [1, 2]

/-- Monotonicity fixture source: height 50 only. -/
def env4 : VPEnv :=
  { chainID := cxChain, now := 0, trustPeriod := 100,
    source := fun h => if h = 50 then Except.ok fcG50 else Except.error VErr.commitNotFound,
    sourceValset := fun _ => Except.error VErr.valsetNotFound }

/-- Monotonicity fixture state: heights 10 and 100 are trusted and the last
verified height is 100. -/
def st4 : PState := { store := [fcG10, fcG100], height := 100 }

/-- A source provider whose validator sets are persistently missing. -/
def envBad : VPEnv :=
  { chainID := cxChain, now := 0, trustPeriod := 100,
    source := fun _ => Except.error VErr.commitNotFound,
    sourceValset := fun _ => Except.error VErr.valsetNotFound }

/-- Nonnegativity of the drift accumulator. -/
theorem compareVotingPowersAux_nonneg (tnext newVals : ValidatorSet) :
    ∀ (l : List Validator) (acc : ℚ), compareVotingPowersAux tnext newVals l = some acc → 0 ≤ acc := by
  intro l
  induction l with
  | nil =>
    intro acc h
    simp only [compareVotingPowersAux, Option.some.injEq] at h
    exact le_of_eq h
  | cons v rest ih =>
    intro acc h
    simp only [compareVotingPowersAux] at h
    cases hga : ValidatorSet.getByAddress tnext v.address with
    | none => rw [hga] at h; exact absurd h (by simp)
    | some tv =>
      rw [hga] at h
      cases hrec : compareVotingPowersAux tnext newVals rest with
      | none => rw [hrec] at h; exact absurd h (by simp)
      | some acc1 =>
        rw [hrec] at h
        simp only [Option.some.injEq] at h
        subst h
        exact add_nonneg (abs_nonneg _) (ih acc1 hrec)

/-- The drift accumulator is strictly positive exactly when some validator
of the new set has a power share different from its share in the trusted
next-validators. -/
theorem compareVotingPowersAux_pos_iff (tnext newVals : ValidatorSet) :
    ∀ (l : List Validator) (acc : ℚ), compareVotingPowersAux tnext newVals l = some acc →
    (0 < acc ↔ ∃ v ∈ l, newShare newVals v ≠ trustedShare tnext v) := by
  intro l
  induction l with
  | nil =>
    intro acc h
    simp only [compareVotingPowersAux, Option.some.injEq] at h
    subst h
    simp
  | cons v rest ih =>
    intro acc h
    simp only [compareVotingPowersAux] at h
    cases hga : ValidatorSet.getByAddress tnext v.address with
    | none => rw [hga] at h; exact absurd h (by simp)
    | some tv =>
      rw [hga] at h
      cases hrec : compareVotingPowersAux tnext newVals rest with
      | none => rw [hrec] at h; exact absurd h (by simp)
      | some acc1 =>
        rw [hrec] at h
        simp only [Option.some.injEq] at h
        subst h
        have hnn1 := compareVotingPowersAux_nonneg tnext newVals rest acc1 hrec
        have habs : (0:ℚ) ≤ |newShare newVals v - trustedShare tnext v| := abs_nonneg _
        constructor
        · intro hpos
          by_cases hd : newShare newVals v = trustedShare tnext v
          · have hz : |newShare newVals v - trustedShare tnext v| = 0 := by
              rw [hd]; simp
            have hpos1 : 0 < acc1 := by linarith
            rcases (ih acc1 hrec).mp hpos1 with ⟨w, hw, hne⟩
            exact ⟨w, List.mem_cons_of_mem _ hw, hne⟩
          · exact ⟨v, List.mem_cons_self v rest, hd⟩
        · rintro ⟨w, hw, hne⟩
          rcases List.mem_cons.mp hw with rfl | hw1
          · have hp : 0 < |newShare newVals w - trustedShare tnext w| :=
              abs_pos.mpr (sub_ne_zero.mpr hne)
            linarith
          · have hp : 0 < acc1 := (ih acc1 hrec).mpr ⟨w, hw1, hne⟩
            linarith

/-- The Go constant `float64(1/3)` is exactly zero. -/
theorem goOneThird_eq_zero : goOneThird = 0 := by
  unfold goOneThird
  rw [show Int.tdiv 1 3 = (0:Int) from rfl]
  norm_num

/-- The drift accumulator at the drift fixture: both of the two power
shares moved by a quarter, so the sum is one half. -/
theorem cmp_tfc1_nfc1 : compareVotingPowers tfc1 nfc1 = some (1/2) := by
  simp [compareVotingPowers, compareVotingPowersAux, tfc1, nfc1, mkFC, mkHeader,
    setAB, setABdrift, valA, valB, ValidatorSet.getByAddress, newShare, trustedShare,
    ValidatorSet.totalVotingPower, List.find?]
  rw [abs_of_nonpos (by norm_num : (4⁻¹ - 2⁻¹ : ℚ) ≤ 0),
    abs_of_nonneg (by norm_num : (0:ℚ) ≤ 3/4 - 2⁻¹)]
  norm_num

/-- C5: in `verifyAndSave` the drift accumulator is compared against
`float64(1/3)`, which is exactly zero because `1/3` is Go integer constant
division; consequently, once the earlier gates pass, the call returns the
validator-change error precisely when the accumulator is strictly positive,
i.e. precisely when some validator's power share in the new validator set
differs at all from its share in the trusted next-validators. -/
theorem verifyAndSave_drift_threshold (env : VPEnv) (store : Store) (tfc nfc : FullCommit) (change : ℚ)
    (hlt : tfc.height < nfc.height)
    (hexp : ¬ env.now - tfc.signedHeader.time > env.trustPeriod)
    (hvc : ValidatorSet.verifyCommitE tfc.nextValidators env.chainID
      nfc.signedHeader.commit.blockID nfc.signedHeader.height nfc.signedHeader.commit = Except.ok ())
    (hvf : nfc.validateFull env.chainID = true)
    (hcmp : compareVotingPowers tfc nfc = some change) :
    goOneThird = 0 ∧
    (verifyAndSave env store tfc nfc = Except.error (VErr.validatorChange change) ↔ 0 < change) ∧
    (0 < change ↔ ∃ v ∈ nfc.validators.validators,
      newShare nfc.validators v ≠ trustedShare tfc.nextValidators v) := by
  refine ⟨goOneThird_eq_zero, ?_, compareVotingPowersAux_pos_iff _ _ _ change hcmp⟩
  unfold verifyAndSave
  by_cases hpos : (0:ℚ) < change
  · simp only [if_neg (not_le.mpr hlt), if_neg hexp, hvc, hvf, hcmp, goOneThird_eq_zero,
      not_true, and_false, if_false, gt_iff_lt, if_pos hpos]
    simp [hpos]
  · simp only [if_neg (not_le.mpr hlt), if_neg hexp, hvc, hvf, hcmp, goOneThird_eq_zero,
      not_true, and_false, if_false, gt_iff_lt, if_neg hpos]
    simp [hpos]

/-- Witness for C5 at the drift fixture: the accumulator is `1/2` and the
validator-change error fires. -/
theorem verifyAndSave_drift_threshold_witness :
    goOneThird = 0 ∧
    (verifyAndSave env1 [] tfc1 nfc1 = Except.error (VErr.validatorChange (1/2)) ↔ 0 < (1/2 : ℚ)) ∧
    (0 < (1/2 : ℚ) ↔ ∃ v ∈ nfc1.validators.validators,
      newShare nfc1.validators v ≠ trustedShare tfc1.nextValidators v) :=
  verifyAndSave_drift_threshold env1 [] tfc1 nfc1 (1/2)
    (by decide) (by decide) (by decide) (by decide) cmp_tfc1_nfc1

/-- C1: at the drift fixture the spec's canonical gate
`verify_commit_trusting` with trust level 1/3 accepts the new commit (both
trusted next-validators signed it), yet `verifyAndSave` rejects it with the
validator-change error produced by the legacy drift accumulator — the code
never calls `verify_commit_trusting` and the drift metric does decide
acceptance. -/
theorem verifyAndSave_drift_gate_decides_acceptance :
    ValidatorSet.verifyCommitTrusting tfc1.nextValidators cxChain
      nfc1.signedHeader.commit.blockID nfc1.signedHeader.height nfc1.signedHeader.commit (1/3) = true ∧
    verifyAndSave env1 [] tfc1 nfc1 = Except.error (VErr.validatorChange (1/2)) := by
  constructor
  · simp [ValidatorSet.verifyCommitTrusting, tfc1, nfc1, mkFC, mkHeader, setAB, setABdrift,
      valA, valB, cxChain, signedPower, ValidatorSet.totalVotingPower]
    norm_num
  · unfold verifyAndSave
    rw [cmp_tfc1_nfc1, goOneThird_eq_zero]
    simp [tfc1, nfc1, mkFC, mkHeader, env1, FullCommit.height,
      ValidatorSet.verifyCommitE, signedPower, ValidatorSet.totalVotingPower,
      FullCommit.validateFull, exceptOk, setAB, setABdrift, valA, valB, cxChain]

/-- C2: `verifyAndSave` enforces the expiration gate before anything is
saved: when the trusted anchor is older than the trust period the call
fails with the commit-expired error (so no store is produced), and
conversely any run that reaches a save had a non-expired anchor. -/
theorem verifyAndSave_expiration_safety (env : VPEnv) (store : Store) (tfc nfc : FullCommit)
    (hlt : tfc.height < nfc.height) :
    (env.now - tfc.signedHeader.time > env.trustPeriod →
      verifyAndSave env store tfc nfc = Except.error VErr.commitExpired) ∧
    (∀ store1, verifyAndSave env store tfc nfc = Except.ok store1 →
      env.now - tfc.signedHeader.time ≤ env.trustPeriod) := by
  constructor
  · intro hexp
    unfold verifyAndSave
    rw [if_neg (not_le.mpr hlt), if_pos hexp]
  · intro store1 hrun
    by_cases hexp : env.now - tfc.signedHeader.time > env.trustPeriod
    · exfalso
      unfold verifyAndSave at hrun
      rw [if_neg (not_le.mpr hlt), if_pos hexp] at hrun
      exact Except.noConfusion hrun
    · exact not_lt.mp hexp

/-- Witness for C2 at the expired fixture: `now − anchor.time = 200 > 100`
and the call fails with the commit-expired error. -/
theorem verifyAndSave_expiration_safety_witness :
    verifyAndSave envExp [] tfc1 nfc1 = Except.error VErr.commitExpired :=
  (verifyAndSave_expiration_safety envExp [] tfc1 nfc1 (by decide)).1 (by decide)

/-- C6: saving the first FullCommit (height 1) into an empty db with
retention limit 1 leaves only the validator-set entry at height 2: the
`vs@2` entry occupies the single retained height slot, so the scan deletes
both the signed header and the validator set of the just-saved latest
height, contradicting the claim that the `sh` and `vs` entries of the
latest height are always kept. -/
theorem dbSave_limit_one_deletes_latest_sh :
    dbSaveFullCommit [] 1 1 = [(2, KPart.vs)] ∧
    ((1, KPart.sh) ∈ dbSaveFullCommit [] 1 1 → False) := by
  decide

/-- Byte-level sanity for the retention model's key order: at one height
`sh` sorts before `vs`, and any key of a lower height sorts before any key
of a higher height, so a descending scan sees `vs@(h+1)` first. -/
theorem dbKey_order_matches_bytes_samples :
    bytesLt (signedHeaderKey cxChain 1) (validatorSetKey cxChain 1) = true ∧
    bytesLt (validatorSetKey cxChain 1) (signedHeaderKey cxChain 2) = true ∧
    bytesLt (validatorSetKey cxChain 2) (signedHeaderKey cxChain 10) = true := by
  decide

/-- A common prefix does not affect the lexicographic byte order. -/
theorem bytesLt_append_left (p a b : List Nat) :
    bytesLt (p ++ a) (p ++ b) = bytesLt a b := by
  induction p with
  | nil => rfl
  | cons x xs ih => simp [bytesLt, lt_self_iff_false, ih]

/-- Fixed-width zero-padded decimal digit strings compare like their
values, whatever bytes follow them. -/
theorem padDec_lt (k : Nat) : ∀ (n1 n2 : Nat) (s t : List Nat), n1 < n2 → n2 < 10 ^ k →
    bytesLt ((padDec k n1).map (fun d => 48 + d) ++ s)
      ((padDec k n2).map (fun d => 48 + d) ++ t) = true := by
  induction k with
  | zero =>
    intro n1 n2 s t h1 h2
    exact absurd h1 (by omega)
  | succ k ih =>
    intro n1 n2 s t h1 h2
    have hd : n1 / 10 ^ k ≤ n2 / 10 ^ k := Nat.div_le_div_right (le_of_lt h1)
    simp only [padDec, List.map_cons, List.cons_append, bytesLt]
    rcases lt_or_eq_of_le hd with hlt | heq
    · rw [if_pos (by omega : 48 + n1 / 10 ^ k < 48 + n2 / 10 ^ k)]
    · rw [heq]
      rw [if_neg (lt_irrefl _), if_neg (lt_irrefl _)]
      apply ih
      · have e1 := Nat.div_add_mod n1 (10 ^ k)
        have e2 := Nat.div_add_mod n2 (10 ^ k)
        rw [heq] at e1
        have hsum : 10 ^ k * (n2 / 10 ^ k) + n1 % 10 ^ k <
            10 ^ k * (n2 / 10 ^ k) + n2 % 10 ^ k := by
          rw [e1, e2]
          exact h1
        exact Nat.lt_of_add_lt_add_left hsum
      · exact Nat.mod_lt _ (pow_pos (by norm_num) k)

/-- C10: the ten-digit zero padding makes lexicographic order of the db
keys coincide with numeric height order, for both the signed-header and the
validator-set key family, over all heights up to 10^10 − 1. -/
theorem key_order_matches_height_order (chain : List Nat) (h1 h2 : Nat)
    (hlt : h1 < h2) (hub : h2 ≤ 10 ^ 10 - 1) :
    bytesLt (signedHeaderKey chain h1) (signedHeaderKey chain h2) = true ∧
    bytesLt (validatorSetKey chain h1) (validatorSetKey chain h2) = true := by
  have hpow : (10:Nat) ^ 10 = 10000000000 := by norm_num
  have hub10 : h2 < 10 ^ 10 := by omega
  constructor
  · unfold signedHeaderKey
    simp only [List.append_assoc]
    rw [bytesLt_append_left chain, bytesLt_append_left [47]]
    exact padDec_lt 10 h1 h2 _ _ hlt hub10
  · unfold validatorSetKey
    simp only [List.append_assoc]
    rw [bytesLt_append_left chain, bytesLt_append_left [47]]
    exact padDec_lt 10 h1 h2 _ _ hlt hub10

/-- Witness for C10 at heights 1 < 2. -/
theorem key_order_matches_height_order_witness :
    bytesLt (signedHeaderKey cxChain 1) (signedHeaderKey cxChain 2) = true ∧
    bytesLt (validatorSetKey cxChain 1) (validatorSetKey cxChain 2) = true :=
  key_order_matches_height_order cxChain 1 2 (by norm_num) (by norm_num)

/-- The next-validator-set retry loop never exits when the source
persistently reports the set missing. -/
theorem fetchNextValset_diverges (h : Int) :
    ∀ fuel, fetchNextValset (fun _ => Except.error VErr.valsetNotFound) fuel h = none := by
  intro fuel
  induction fuel with
  | zero => rfl
  | succ fuel ih => simpa [fetchNextValset] using ih

/-- C7: `fillValsetAndSaveFC` does not surface a missing next validator
set: against a source that persistently returns validator-set-not-found at
every height it retries forever — for every fuel bound the call has not
returned — instead of performing a bounded number of source calls and
surfacing the error without retry. -/
theorem fillValsetAndSaveFC_retries_forever :
    ∀ (fuel : Nat) (store : Store) (sh : SignedHeader) (vs : ValidatorSet),
    fillValsetAndSaveFC envBad store fuel sh (some vs) none = none := by
  intro fuel store sh vs
  simp [fillValsetAndSaveFC, envBad, fetchNextValset_diverges]

/-- One unfolding of the bisecting loop at the adjacent-churn fixture: the
trusted anchor is height 1, `verifyAndSave` fails with too-much-change, the
midpoint is `(1+2)/2 = 1 = tfc.height`, and the loop recurses into a fetch
of height 1 before retrying itself on an unchanged store. -/
theorem bisect_loop_step_env3 (fuel : Nat) :
    bisectStep env3 (fuel + 1) (BisectCall.loop store3 2 fcB2) =
      (match bisectStep env3 fuel (BisectCall.fetch store3 1) with
       | none => none
       | some (Except.error e1) => some (Except.error e1)
       | some (Except.ok (_, store1)) => bisectStep env3 fuel (BisectCall.loop store1 2 fcB2)) :=
  rfl

/-- Entering the bisection at target 2 on the fixture reduces to the loop. -/
theorem bisect_fetch2_step_env3 (fuel : Nat) :
    bisectStep env3 (fuel + 1) (BisectCall.fetch store3 2) =
      bisectStep env3 fuel (BisectCall.loop store3 2 fcB2) :=
  rfl

/-- The recursive bisection call at the midpoint 1 returns immediately with
the already-trusted commit and an unchanged store (or runs out of fuel). -/
theorem bisect_env3_at_one (fuel : Nat) :
    bisectStep env3 fuel (BisectCall.fetch store3 1) = none ∨
    bisectStep env3 fuel (BisectCall.fetch store3 1) = some (Except.ok (fcB1, store3)) := by
  match fuel with
  | 0 => exact Or.inl rfl
  | 1 => exact Or.inl rfl
  | Nat.succ (Nat.succ n) => exact Or.inr rfl

/-- The bisecting loop at the adjacent-churn fixture never returns. -/
theorem bisect_loop_env3_diverges :
    ∀ fuel, bisectStep env3 fuel (BisectCall.loop store3 2 fcB2) = none := by
  intro fuel
  induction fuel with
  | zero => rfl
  | succ fuel ih =>
    rw [bisect_loop_step_env3 fuel]
    rcases bisect_env3_at_one fuel with hnone | hok
    · rw [hnone]
    · rw [hok]
      exact ih

/-- C3: the bisecting mode has no `tfc.height < m < H` midpoint guard: at
the adjacent-churn fixture (trusted height 1, target H = 2, skip step
failing with too-much-change) the midpoint is `m = 1 = tfc.height`, the
recursive call trivially succeeds without progress and the loop repeats
forever — `update_to_height(2)` has not returned within any fuel bound, so
the call neither fails nor terminates as the claim requires. -/
theorem updateToHeight_adjacent_bisection_never_returns :
    ∀ fuel, updateToHeight env3 fuel { store := store3, height := 1 } 2 = none := by
  intro fuel
  match fuel with
  | 0 => rfl
  | Nat.succ n =>
    have hb : bisect env3 (n + 1) store3 2 = none := by
      show bisectStep env3 (n + 1) (BisectCall.fetch store3 2) = none
      rw [bisect_fetch2_step_env3 n]
      exact bisect_loop_env3_diverges n
    show (match bisect env3 (n + 1) store3 2 with
          | none => none
          | some (Except.error e1) => some (Except.error e1)
          | some (Except.ok (_, store1)) =>
            some (Except.ok (PState.mk store1 2))) = none
    rw [hb]

/-- `pickLatest` returns a member of its input. -/
theorem pickLatest_mem : ∀ (l : List FullCommit) (fc : FullCommit),
    pickLatest l = some fc → fc ∈ l := by
  intro l
  induction l with
  | nil =>
    intro fc h
    simp [pickLatest] at h
  | cons a rest ih =>
    intro fc h
    simp only [pickLatest] at h
    split at h
    · simp only [Option.some.injEq] at h
      subst h
      exact List.mem_cons_self a rest
    · rename_i b hr
      split at h
      · simp only [Option.some.injEq] at h
        subst h
        exact List.mem_cons_self a rest
      · simp only [Option.some.injEq] at h
        subst h
        exact List.mem_cons_of_mem _ (ih _ hr)

/-- `pickLatest` succeeds on any non-empty list. -/
theorem pickLatest_isSome (a : FullCommit) (l : List FullCommit) :
    ∃ fc, pickLatest (a :: l) = some fc := by
  simp only [pickLatest]
  cases pickLatest l with
  | none => exact ⟨a, rfl⟩
  | some b =>
    show ∃ fc, (if b.height < a.height then some a else some b) = some fc
    by_cases hcmp : b.height < a.height
    · exact ⟨a, by rw [if_pos hcmp]⟩
    · exact ⟨b, by rw [if_neg hcmp]⟩

/-- A successful store lookup returns a stored commit within the range. -/
theorem latestFullCommit_ok_mem (store : Store) (minH maxH : Int) (fc : FullCommit)
    (h : latestFullCommit store minH maxH = Except.ok fc) :
    fc ∈ store ∧ minH ≤ fc.height ∧ fc.height ≤ maxH := by
  unfold latestFullCommit at h
  cases hp : pickLatest (store.filter fun fc =>
      decide (minH ≤ fc.height) && decide (fc.height ≤ maxH)) with
  | none =>
    rw [hp] at h
    exact absurd h (by simp)
  | some b =>
    rw [hp] at h
    simp only [Except.ok.injEq] at h
    subst h
    have hmem := pickLatest_mem _ _ hp
    rw [List.mem_filter] at hmem
    refine ⟨hmem.1, ?_, ?_⟩
    · have hcond := hmem.2
      simp only [Bool.and_eq_true, decide_eq_true_eq] at hcond
      exact hcond.1
    · have hcond := hmem.2
      simp only [Bool.and_eq_true, decide_eq_true_eq] at hcond
      exact hcond.2

/-- A store holding a commit in range makes the lookup succeed. -/
theorem latestFullCommit_mem_ok (store : Store) (minH maxH : Int) (fc : FullCommit)
    (hmem : fc ∈ store) (h1 : minH ≤ fc.height) (h2 : fc.height ≤ maxH) :
    ∃ fc1, latestFullCommit store minH maxH = Except.ok fc1 := by
  unfold latestFullCommit
  have hmemf : fc ∈ store.filter (fun fc =>
      decide (minH ≤ fc.height) && decide (fc.height ≤ maxH)) := by
    rw [List.mem_filter]
    exact ⟨hmem, by simp [h1, h2]⟩
  cases hfl : store.filter (fun fc =>
      decide (minH ≤ fc.height) && decide (fc.height ≤ maxH)) with
  | nil =>
    rw [hfl] at hmemf
    exact absurd hmemf (List.not_mem_nil fc)
  | cons a rest =>
    obtain ⟨fc1, hfc1⟩ := pickLatest_isSome a rest
    refine ⟨fc1, ?_⟩
    rw [hfc1]

/-- A successful `verifyAndSave` returns exactly the store extended with the
new commit. -/
theorem verifyAndSave_ok_store (env : VPEnv) (store : Store) (tfc nfc : FullCommit)
    (store1 : Store) (h : verifyAndSave env store tfc nfc = Except.ok store1) :
    store1 = saveFullCommit store nfc := by
  unfold verifyAndSave at h
  split at h
  · exact absurd h (by simp)
  · split at h
    · exact absurd h (by simp)
    · split at h
      · exact absurd h (by simp)
      · split at h
        · exact absurd h (by simp)
        · split at h
          · exact absurd h (by simp)
          · split at h
            · exact absurd h (by simp)
            · exact (Except.ok.inj h).symm

/-- Target height of a bisection call. -/
def BisectCall.target : BisectCall → Int
  | BisectCall.fetch _ h => h
  | BisectCall.loop _ h _ => h

/-- Well-formedness of a bisection call: loop calls carry a source commit at
the target height (established by the fetch entry). -/
def BisectCall.wf : BisectCall → Prop
  | BisectCall.fetch _ _ => True
  | BisectCall.loop _ h sfc => sfc.height = h

/-- A successful bisection leaves a commit at the target height in the
resulting store. -/
theorem bisectStep_has_target (env : VPEnv) :
    ∀ (fuel : Nat) (call : BisectCall) (fc : FullCommit) (store1 : Store),
    bisectStep env fuel call = some (Except.ok (fc, store1)) → call.wf →
    ∃ c ∈ store1, c.height = call.target := by
  intro fuel
  induction fuel with
  | zero =>
    intro call fc store1 hstep _
    exact absurd hstep (by cases call <;> simp [bisectStep])
  | succ fuel ih =>
    intro call fc store1 hstep hwf
    cases call with
    | fetch store h =>
      simp only [bisectStep] at hstep
      split at hstep
      · exact absurd hstep (by simp)
      · rename_i sourceFC hsrc
        split at hstep
        · exact absurd hstep (by simp)
        · split at hstep
          · exact absurd hstep (by simp)
          · rename_i hne hval
            have hh : sourceFC.height = h := not_not.mp hne
            exact ih (BisectCall.loop store h sourceFC) fc store1 hstep hh
    | loop store h sfc =>
      simp only [bisectStep] at hstep
      split at hstep
      · exact absurd hstep (by simp)
      · rename_i trustedFC hlat
        split at hstep
        · rename_i htr
          simp only [Option.some.injEq, Except.ok.injEq, Prod.mk.injEq] at hstep
          obtain ⟨hfc, hst⟩ := hstep
          subst hst
          exact ⟨trustedFC, (latestFullCommit_ok_mem store 1 h trustedFC hlat).1, htr⟩
        · split at hstep
          · rename_i store2 hvas
            simp only [Option.some.injEq, Except.ok.injEq, Prod.mk.injEq] at hstep
            obtain ⟨hfc, hst⟩ := hstep
            subst hst
            rw [verifyAndSave_ok_store env store trustedFC sfc store2 hvas]
            exact ⟨sfc, List.mem_cons_self sfc store, hwf⟩
          · rename_i e hvas
            split at hstep
            · split at hstep
              · exact absurd hstep (by simp)
              · have hwf1 : sfc.height = h := hwf
                show ∃ c ∈ store1, c.height = h
                split at hstep <;>
                  first
                  | exact absurd hstep (by simp)
                  | exact ih _ fc store1 hstep hwf1
            · exact absurd hstep (by simp)

/-- No drift between the stable fixture commits: the accumulator is zero. -/
theorem cmp_fcG10_fcG50 : compareVotingPowers fcG10 fcG50 = some 0 := by
  simp [compareVotingPowers, compareVotingPowersAux, fcG10, fcG50, mkFC, mkHeader,
    setAB, valA, valB, ValidatorSet.getByAddress, newShare, trustedShare,
    ValidatorSet.totalVotingPower, List.find?]

/-- With no drift and stable validators the fixture skip step succeeds and
saves the commit at height 50. -/
theorem vas_env4 : verifyAndSave env4 st4.store fcG10 fcG50 = Except.ok [fcG50, fcG10, fcG100] := by
  unfold verifyAndSave
  rw [cmp_fcG10_fcG50, goOneThird_eq_zero]
  simp [fcG10, fcG50, mkFC, mkHeader, env4, st4, FullCommit.height,
    ValidatorSet.verifyCommitE, signedPower, ValidatorSet.totalVotingPower,
    FullCommit.validateFull, exceptOk, setAB, valA, valB, cxChain, saveFullCommit]

/-- The fixture bisection run reduces to the result of the skip step. -/
theorem bisect_env4_step :
    bisectStep env4 2 (BisectCall.fetch st4.store 50) =
      (match verifyAndSave env4 st4.store fcG10 fcG50 with
       | Except.ok store1 => some (Except.ok (fcG50, store1))
       | Except.error e =>
         if e = VErr.tooMuchChange then
           if ¬ (fcG10.height < fcG50.height) then some (Except.error VErr.panicked)
           else
             match bisectStep env4 0
                 (BisectCall.fetch st4.store (Int.tdiv (fcG10.height + fcG50.height) 2)) with
             | none => none
             | some (Except.error e1) => some (Except.error e1)
             | some (Except.ok (_, store1)) => bisectStep env4 0 (BisectCall.loop store1 50 fcG50)
         else some (Except.error e)) :=
  rfl

/-- The full fixture run: requesting height 50 from trusted heights
`{10, 100}` fetches, verifies against the anchor at 10, saves the commit at
50 and assigns 50 to the last-verified-height field. -/
theorem updateToHeight_env4_run :
    updateToHeight env4 2 st4 50 = some (Except.ok (PState.mk [fcG50, fcG10, fcG100] 50)) := by
  have hb : bisect env4 2 st4.store 50 = some (Except.ok (fcG50, [fcG50, fcG10, fcG100])) := by
    show bisectStep env4 2 (BisectCall.fetch st4.store 50) = _
    rw [bisect_env4_step, vas_env4]
  show (match bisect env4 2 st4.store 50 with
        | none => none
        | some (Except.error e1) => some (Except.error e1)
        | some (Except.ok (_, store1)) => some (Except.ok (PState.mk store1 50))) =
      some (Except.ok (PState.mk [fcG50, fcG10, fcG100] 50))
  rw [hb]

/-- C4 counterexample: from last verified height 100 (with trusted commits
at 10 and 100), a successful `UpdateToHeight(50)` assigns 50 to the
last-verified-height field — the counter decreases from 100 to 50. -/
theorem updateToHeight_lowers_the_counter :
    updateToHeight env4 2 st4 50 = some (Except.ok (PState.mk [fcG50, fcG10, fcG100] 50)) ∧
    st4.height = 100 ∧ ¬ ((100:Int) ≤ 50) :=
  ⟨updateToHeight_env4_run, rfl, by norm_num⟩

/-- C4 as amended: `UpdateToHeight` either returns with the state unchanged
(target already trusted) or assigns exactly the target height to the
last-verified-height field — which therefore decreases whenever a lower,
not-yet-stored height is requested. -/
theorem updateToHeight_assigns_target (env : VPEnv) (fuel : Nat) (st : PState) (h : Int)
    (st1 : PState) (hrun : updateToHeight env fuel st h = some (Except.ok st1)) :
    st1 = st ∨ st1.height = h := by
  unfold updateToHeight at hrun
  split at hrun
  · simp only [Option.some.injEq, Except.ok.injEq] at hrun
    exact Or.inl hrun.symm
  · split at hrun
    · split at hrun
      · exact absurd hrun (by simp)
      · exact absurd hrun (by simp)
      · simp only [Option.some.injEq, Except.ok.injEq] at hrun
        right
        rw [← hrun]
    · exact absurd hrun (by simp)

/-- Witness for the amended C4 at the fixture run: the returned state
carries exactly the target height 50. -/
theorem updateToHeight_assigns_target_witness :
    PState.mk [fcG50, fcG10, fcG100] 50 = st4 ∨ (PState.mk [fcG50, fcG10, fcG100] 50).height = 50 :=
  updateToHeight_assigns_target env4 2 st4 50 _ updateToHeight_env4_run

/-- C9: `UpdateToHeight` is idempotent: when the trusted store already holds
a commit at exactly the target height the call succeeds immediately with the
state unchanged — for every environment, source and fuel bound, so no source
fetch or store write can have influenced the result — and a second serial
call for the same height after any successful call likewise returns with no
further change, hence at most one save per height. -/
theorem updateToHeight_idempotent (env env2 : VPEnv) (fuel fuel2 : Nat) (st : PState) (h : Int) :
    ((∃ fc ∈ st.store, fc.height = h) → updateToHeight env fuel st h = some (Except.ok st)) ∧
    (∀ st1, updateToHeight env fuel st h = some (Except.ok st1) →
      updateToHeight env2 fuel2 st1 h = some (Except.ok st1)) := by
  have hpart1 : ∀ (env3 : VPEnv) (fuel3 : Nat) (st3 : PState),
      (∃ fc ∈ st3.store, fc.height = h) →
      updateToHeight env3 fuel3 st3 h = some (Except.ok st3) := by
    rintro env3 fuel3 st3 ⟨fc, hmem, hh⟩
    obtain ⟨fc1, hfc1⟩ :=
      latestFullCommit_mem_ok st3.store h h fc hmem (le_of_eq hh.symm) (le_of_eq hh)
    unfold updateToHeight
    rw [hfc1]
  refine ⟨hpart1 env fuel st, ?_⟩
  intro st1 hrun
  apply hpart1
  unfold updateToHeight at hrun
  split at hrun
  · rename_i fc0 hlat
    simp only [Option.some.injEq, Except.ok.injEq] at hrun
    subst hrun
    obtain ⟨hmem, hge, hle⟩ := latestFullCommit_ok_mem st.store h h fc0 hlat
    exact ⟨fc0, hmem, le_antisymm hle hge⟩
  · split at hrun
    · split at hrun
      · exact absurd hrun (by simp)
      · exact absurd hrun (by simp)
      · rename_i fc2 store2 hbis
        simp only [Option.some.injEq, Except.ok.injEq] at hrun
        subst hrun
        exact bisectStep_has_target env fuel (BisectCall.fetch st.store h) fc2 store2 hbis trivial
    · exact absurd hrun (by simp)

/-- Witness for C9: the store already holds the commit at height 10 and the
call returns immediately with the state unchanged. -/
theorem updateToHeight_idempotent_witness :
    updateToHeight env1 0 (PState.mk [fcG10] 10) 10 = some (Except.ok (PState.mk [fcG10] 10)) :=
  (updateToHeight_idempotent env1 env1 0 0 (PState.mk [fcG10] 10) 10).1
    ⟨fcG10, List.mem_cons_self fcG10 [], rfl⟩

/-- Bootstrap fixture options: Option A with trust height 5 and trust hash
`[5]`. -/
def opts8 : TrustOptions := { trustPeriod := 100, trustHeight := 5, trustHash := [5] }

/-- Bootstrap fixture: the source's latest signed header, at height 9. -/
def sh9 : SignedHeader := mkHeader 9 setAB setAB [1, 2]

/-- Bootstrap fixture: the signed header at the trust height 5 (its model
hash is `[5]`). -/
def sh5 : SignedHeader := mkHeader 5 setAB setAB [1, 2]

/-- C8: under Option A (selected iff `trust_height > 0` and a non-empty
`trust_hash`) the bootstrap fails with the stale-trust error iff
`latest.time − trust.time` strictly exceeds the trust period (equality
passes), fails with the hash-mismatch error iff it is within the period but
the fetched header's hash differs from `trust_hash` (the staleness gate is
checked first), and otherwise the fetched signed header becomes the trust
anchor. -/
theorem getTrustedCommit_optionA (latestRes trustRes : Except VErr SignedHeader)
    (opts : TrustOptions) (cb : Option (Except VErr Unit)) (latest trustC : SignedHeader)
    (hl : latestRes = Except.ok latest) (ht : trustRes = Except.ok trustC) :
    (opts.option1 = true ↔ 0 < opts.trustHeight ∧ opts.trustHash ≠ []) ∧
    (opts.option1 = true →
      ((getTrustedCommit latestRes trustRes opts cb = Except.error VErr.staleTrust ↔
          latest.time - trustC.time > opts.trustPeriod) ∧
       (getTrustedCommit latestRes trustRes opts cb = Except.error VErr.trustHashMismatch ↔
          (latest.time - trustC.time ≤ opts.trustPeriod ∧ trustC.hdrHash ≠ opts.trustHash)) ∧
       (getTrustedCommit latestRes trustRes opts cb = Except.ok trustC ↔
          (latest.time - trustC.time ≤ opts.trustPeriod ∧ trustC.hdrHash = opts.trustHash)))) := by
  subst hl
  subst ht
  constructor
  · simp [TrustOptions.option1]
  · intro hopt
    unfold getTrustedCommit
    simp only [hopt, if_true]
    by_cases hstale : latest.time - trustC.time > opts.trustPeriod
    · rw [if_pos hstale]
      simp [hstale, not_le.mpr hstale]
    · rw [if_neg hstale]
      by_cases hhash : trustC.hdrHash ≠ opts.trustHash
      · rw [if_pos hhash]
        simp [hstale, hhash, not_lt.mp hstale]
      · rw [if_neg hhash]
        simp [hstale, not_not.mp hhash, not_lt.mp hstale]

/-- Witness for C8 at the bootstrap fixture: within the trust period and
with a matching hash, the header at the trust height becomes the anchor. -/
theorem getTrustedCommit_optionA_witness :
    (opts8.option1 = true ↔ 0 < opts8.trustHeight ∧ opts8.trustHash ≠ []) ∧
    (opts8.option1 = true →
      ((getTrustedCommit (Except.ok sh9) (Except.ok sh5) opts8 none = Except.error VErr.staleTrust ↔
          sh9.time - sh5.time > opts8.trustPeriod) ∧
       (getTrustedCommit (Except.ok sh9) (Except.ok sh5) opts8 none = Except.error VErr.trustHashMismatch ↔
          (sh9.time - sh5.time ≤ opts8.trustPeriod ∧ sh5.hdrHash ≠ opts8.trustHash)) ∧
       (getTrustedCommit (Except.ok sh9) (Except.ok sh5) opts8 none = Except.ok sh5 ↔
          (sh9.time - sh5.time ≤ opts8.trustPeriod ∧ sh5.hdrHash = opts8.trustHash)))) :=
  getTrustedCommit_optionA (Except.ok sh9) (Except.ok sh5) opts8 none sh9 sh5 rfl rfl
